import Mathlib

/-!
# Verification of `parser_engine/itemclassloader.py`

A shallow embedding of the item-class registry: the module-level helper
`iter_item_classes` and the methods of `ItemClassLoader`
(`__init`, `_load_items`, `_load_all_items`, `list`, `get`, `load`).

Python's runtime is modelled explicitly:

* a *class object* carries an identity, its `__name__`, its `__module__`
  and whether `issubclass(cls, Item)` holds;
* a *module* is its `__name__` together with `vars(module)` as an ordered
  association list of member bindings;
* the external collaborators `walk_modules` and `importlib.import_module`
  are an environment of functions that either return or raise;
* a Python `dict` is an insertion-ordered association list: updating an
  existing key keeps its position, a new key is appended at the end;
* raising is modelled with `Except`; an operation that can leave mutations
  behind before raising returns its post-state next to the outcome.

The source reads `self.warn_only` without ever assigning it in this file,
so the registry state carries it as an `Option Bool`: `none` means the
attribute is absent and reading it raises `AttributeError`.
-/

/-- Python exceptions that the embedded code can raise or catch. -/
inductive PyErr where
  | importError (msg : String)
  | attributeError (msg : String)
  | valueError (msg : String)
  deriving DecidableEq, Repr

/-- A Python class object: an identity (distinguishing distinct class
objects), `__name__`, `__module__`, and whether it is a subclass of
`scrapy.Item`. -/
structure PyClass where
  id : Nat
  name : String
  module : String
  isItemSubclass : Bool
  deriving DecidableEq, Repr

/-- A Python value as seen by the loader: either a class object or a
non-class object with an identity and a truthiness. -/
inductive PyValue where
  | cls (c : PyClass)
  | nonclass (id : Nat) (truthy : Bool)
  deriving DecidableEq, Repr

/-- `inspect.isclass`. -/
def isClassV : PyValue → Bool
  | .cls _ => true
  | .nonclass _ _ => false

/-- Python truthiness of a value (class objects are always truthy). -/
def truthy : PyValue → Bool
  | .cls _ => true
  | .nonclass _ t => t

/-- Truthiness of `cls` after `cls = self.get(name)`: `None` is falsy. -/
def truthyOpt : Option PyValue → Bool
  | none => false
  | some v => truthy v

/-- A Python module: `__name__` and `vars(module)` in iteration order. -/
structure PyModule where
  name : String
  members : List (String × PyValue)
  deriving DecidableEq, Repr

/-- The external collaborators: `scrapy.utils.misc.walk_modules` and
`importlib.import_module`.  Each either returns or raises. -/
structure Env where
  walk : String → Except PyErr (List PyModule)
  importMod : String → Except PyErr PyModule

/-- `exceptOk r` is true when `r` did not raise. -/
def exceptOk : Except PyErr α → Bool
  | .ok _ => true
  | .error _ => false

instance {ε α : Type _} [DecidableEq ε] [DecidableEq α] : DecidableEq (Except ε α) := fun a b =>
  match a, b with
  | .ok x, .ok y =>
    if h : x = y then .isTrue (congrArg Except.ok h)
    else .isFalse (fun hc => h (Except.ok.inj hc))
  | .error x, .error y =>
    if h : x = y then .isTrue (congrArg Except.error h)
    else .isFalse (fun hc => h (Except.error.inj hc))
  | .ok _, .error _ => .isFalse (fun hc => Except.noConfusion hc)
  | .error _, .ok _ => .isFalse (fun hc => Except.noConfusion hc)

/-! ## Python `dict` as an insertion-ordered association list -/

/-- `d.get(k)` / `d[k]` lookup: first (unique) binding of `k`. -/
def dictGet : List (String × α) → String → Option α
  | [], _ => none
  | p :: t, k => if p.1 = k then some p.2 else dictGet t k

/-- `d[k] = v`: update the existing binding in place, else append. -/
def dictInsert (d : List (String × α)) (k : String) (v : α) : List (String × α) :=
  if (dictGet d k).isSome then d.map (fun p => if p.1 = k then (k, v) else p)
  else d ++ [(k, v)]

/-- `list(d.keys())` in iteration order. -/
def dictKeys (d : List (String × α)) : List String :=
  d.map Prod.fst

/-- Fold a list of `key = value` assignments into a dict, left to right. -/
def dictFold (L : List (String × α)) (d : List (String × α)) : List (String × α) :=
  L.foldl (fun d p => dictInsert d p.1 p.2) d

/-- The last value assigned to `k` in an assignment list, if any. -/
def lookupLast : List (String × α) → String → Option α
  | [], _ => none
  | p :: t, k =>
    match lookupLast t k with
    | some v => some v
    | none => if p.1 = k then some p.2 else none

/-- `olast a b`: `a` if it is `some`, else `b` (later assignments win). -/
def olast : Option α → Option α → Option α
  | some v, _ => some v
  | none, b => b

/-! ## The registry state (`ItemClassLoader.__init` fields) -/

/-- The mutable state of the `ItemClassLoader` instance.

`found` is `self._found` (a `defaultdict(list)`), `items` is
`self._items`, `item_modules` is `self.item_modules`, `loaded` is
`self._loaded`.  `warn_only` models the `self.warn_only` attribute that
the source reads but never assigns (`none` = attribute absent).
`warnings` records the diagnostics emitted through `warnings.warn`. -/
structure Registry where
  found : List (String × List (String × String))
  items : List (String × PyValue)
  item_modules : List String
  loaded : Bool
  warn_only : Option Bool
  warnings : List String
  deriving DecidableEq, Repr

/-- `ItemClassLoader.__init(settings)`: fresh state with the configured
`ITEM_MODULES` list and `_loaded = False`.  `warn_only` is the externally
assigned attribute value (the method itself never sets it). -/
def initState (item_modules : List String) (warn_only : Option Bool) : Registry :=
  { found := [], items := [], item_modules := item_modules,
    loaded := false, warn_only := warn_only, warnings := [] }

/-! ## `iter_item_classes` and `_load_items` -/

/-- `iter_item_classes(module)`: the members of `vars(module)` that are
classes, subclasses of `Item`, and declared in this module
(`obj.__module__ == module.__name__`), in iteration order. -/
def iter_item_classes (m : PyModule) : List PyClass :=
  (m.members.map Prod.snd).filterMap (fun v =>
    match v with
    | .cls c => if c.isItemSubclass && c.module == m.name then some c else none
    | .nonclass _ _ => none)

/-- One iteration of the `_load_items` loop body for class `c` found in
the module named `modName`. -/
def loadItemsStep (modName : String) (s : Registry) (c : PyClass) : Registry :=
  { s with
    found := dictInsert s.found c.name
      ((dictGet s.found c.name).getD [] ++ [(modName, c.name)]),
    items := dictInsert s.items c.name (.cls c) }

/-- `ItemClassLoader._load_items(module)`. -/
def load_items (s : Registry) (m : PyModule) : Registry :=
  (iter_item_classes m).foldl (loadItemsStep m.name) s

/-! ## `_load_all_items` -/

/-- The diagnostic message of the warn-only skip (the source formats a
traceback into it; we keep the identifying part). -/
def couldNotLoadMsg (n : String) : String :=
  "Could not load spiders from module " ++ n ++ ". See above traceback for details."

/-- The `for name in self.item_modules` loop of `_load_all_items`,
followed by `self._loaded = True`.  Returns the post-state together with
the raised exception, if any (mutations made before the raise persist).

Per root: `walk_modules(name)` is consumed and each module fed to
`_load_items`; an `ImportError` is downgraded to a warning when
`self.warn_only` is true, re-raised when it is false, and reading the
absent attribute raises `AttributeError`.  Other exceptions propagate. -/
def discoverLoop (env : Env) : List String → Registry → Registry × Option PyErr
  | [], s => ({ s with loaded := true }, none)
  | n :: rest, s =>
    match env.walk n with
    | .ok mods => discoverLoop env rest (mods.foldl load_items s)
    | .error (.importError msg) =>
      match s.warn_only with
      | some true =>
        discoverLoop env rest { s with warnings := s.warnings ++ [couldNotLoadMsg n] }
      | some false => (s, some (.importError msg))
      | none => (s, some (.attributeError "warn_only"))
    | .error e => (s, some e)

/-- The `if item_modules: self.item_modules.append(item_modules)` prefix
of `_load_all_items`: the extra root is appended when truthy (a
non-empty string). -/
def appendExtra (s : Registry) (extra : Option String) : Registry :=
  if extra.getD "" = "" then s
  else { s with item_modules := s.item_modules ++ [extra.getD ""] }

/-- `ItemClassLoader._load_all_items(item_modules=None)` — the spec's
`discoverAll(extraRoot?)`. -/
def load_all_items (env : Env) (s : Registry) (extra : Option String) :
    Registry × Option PyErr :=
  discoverLoop env (appendExtra s extra).item_modules (appendExtra s extra)

/-! ## `list`, `get`, `load` -/

/-- `ItemClassLoader.list()`: lazy bootstrap, then the dict's keys. -/
def list (env : Env) (s : Registry) : Registry × Except PyErr (List String) :=
  if s.loaded then (s, .ok (dictKeys s.items))
  else
    match load_all_items env s none with
    | (s', none) => (s', .ok (dictKeys s'.items))
    | (s', some e) => (s', .error e)

/-- `ItemClassLoader.get(name)`: empty name short-circuits to `None`
before the lazy bootstrap; otherwise bootstrap if needed, then a pure
dict lookup. -/
def ItemClassLoader.get (env : Env) (s : Registry) (name : String) :
    Registry × Except PyErr (Option PyValue) :=
  if name = "" then (s, .ok none)
  else if s.loaded then (s, .ok (dictGet s.items name))
  else
    match load_all_items env s none with
    | (s', none) => (s', .ok (dictGet s'.items name))
    | (s', some e) => (s', .error e)

/-- `name.rsplit('.', 1)` when it unpacks into two parts: split at the
last `'.'`; `none` when there is no separator (Python raises
`ValueError` on the unpacking). -/
def rsplitDotAux : List Char → Option (List Char × List Char)
  | [] => none
  | c :: cs =>
    match rsplitDotAux cs with
    | some (l, r) => some (c :: l, r)
    | none => if c = '.' then some ([], cs) else none

/-- `rsplitDot name = some (module, cls_name)` iff `name` contains a
separator. -/
def rsplitDot (s : String) : Option (String × String) :=
  (rsplitDotAux s.data).map (fun p => (String.mk p.1, String.mk p.2))

/-- `getattr(md, cls_name)`: first binding in `vars(md)`, else
`AttributeError`. -/
def getattr (m : PyModule) (attr : String) : Except PyErr PyValue :=
  match dictGet m.members attr with
  | some v => .ok v
  | none => .error (.attributeError attr)

/-- The `try:` block of `ItemClassLoader.load(name)`: `get`, then the
import-on-call fallback.  Returns the post-state and the outcome; an
exception anywhere in the block (including inside the lazy bootstrap
run by `get`) surfaces as `.error`. -/
def loadBody (env : Env) (s : Registry) (name : String) :
    Registry × Except PyErr (Option PyValue) :=
  match ItemClassLoader.get env s name with
  | (s1, .error e) => (s1, .error e)
  | (s1, .ok cls0) =>
    if truthyOpt cls0 = false ∧ name ≠ "" then
      match rsplitDot name with
      | none => (s1, .error (.valueError "not enough values to unpack"))
      | some (modPath, clsName) =>
        match env.importMod modPath with
        | .error e => (s1, .error e)
        | .ok md =>
          match getattr md clsName with
          | .error e => (s1, .error e)
          | .ok v =>
            if truthy v && isClassV v then
              ({ s1 with items := dictInsert s1.items name v }, .ok (some v))
            else (s1, .ok (some v))
    else (s1, .ok cls0)

/-- The diagnostic emitted by `load`'s `except` clause. -/
def classNotFoundMsg (n : String) : String :=
  "class " ++ n ++ " not found"

/-- `ItemClassLoader.load(name)`: the `try` block with its catch-all
`except (ImportError, ModuleNotFoundError, Exception)` clause.  The
return type has no exception component: every failure of the body is
converted into a warning plus `None`. -/
def load (env : Env) (s : Registry) (name : String) : Registry × Option PyValue :=
  match loadBody env s name with
  | (s', .ok v) => (s', v)
  | (s', .error _) =>
    ({ s' with warnings := s'.warnings ++ [classNotFoundMsg name] }, none)

/-! ## Operation sequences (for the lifetime claims) -/

/-- One public operation on the registry. -/
inductive Op where
  | discover (extra : Option String)
  | listOp
  | getOp (n : String)
  | loadOp (n : String)

/-- The post-state of running one operation (exceptions, if raised,
propagate to the caller but the mutations made so far persist). -/
def runOp (env : Env) (s : Registry) : Op → Registry
  | .discover ex => (load_all_items env s ex).1
  | .listOp => (list env s).1
  | .getOp n => (ItemClassLoader.get env s n).1
  | .loadOp n => (load env s n).1

/-- The post-state of a sequence of operations. -/
def runOps (env : Env) (s : Registry) (ops : List Op) : Registry :=
  ops.foldl (runOp env) s

/-! ## Effect of `_load_items` -/

/-- The `(short name, class)` assignments a scanned module contributes to
`_items`, in scan order. -/
def moduleInserts (m : PyModule) : List (String × PyValue) :=
  (iter_item_classes m).map (fun c => (c.name, PyValue.cls c))

/-- The `(module name, class name)` pairs appended to `_found[k]` while
scanning module `m`. -/
def moduleOccs (m : PyModule) (k : String) : List (String × String) :=
  ((iter_item_classes m).filter (fun c => c.name = k)).map (fun c => (m.name, c.name))

/-! ## Effect of the `_load_all_items` loop -/

/-- The `_items` assignments contributed by root `n`: all of its walked
modules' inserts when the walk succeeds, nothing when it raises. -/
def rootInserts (env : Env) (n : String) : List (String × PyValue) :=
  match env.walk n with
  | .ok mods => mods.flatMap moduleInserts
  | .error _ => []

/-- All `_items` assignments of a full discovery pass over `ns`. -/
def successfulInserts (env : Env) (ns : List String) : List (String × PyValue) :=
  ns.flatMap (rootInserts env)

/-- Whether processing root `n` runs to completion: its walk succeeds, or
raises an `ImportError` that warn-only mode downgrades. -/
def rootTolerable (env : Env) (w : Option Bool) (n : String) : Bool :=
  match env.walk n with
  | .ok _ => true
  | .error (.importError _) => w == some true
  | .error _ => false

/-- Whether a discovery pass over `ns` runs to completion. -/
def completesB (env : Env) (ns : List String) (w : Option Bool) : Bool :=
  ns.all (rootTolerable env w)

/-! ## Concrete data for witnesses -/

/-- A qualifying item class named `Foo` declared in module `m`. -/
def fooCls : PyClass := { id := 1, name := "Foo", module := "m", isItemSubclass := true }

/-- A module `m` with one item class and one non-class member. -/
def modM : PyModule :=
  { name := "m", members := [("Foo", PyValue.cls fooCls), ("x", PyValue.nonclass 7 true)] }

/-- Two same-named classes declared in distinct walked modules. -/
def dupA : PyClass := { id := 2, name := "Dup", module := "w.a", isItemSubclass := true }

def dupB : PyClass := { id := 3, name := "Dup", module := "w.b", isItemSubclass := true }

def modA : PyModule := { name := "w.a", members := [("Dup", PyValue.cls dupA)] }

def modB : PyModule := { name := "w.b", members := [("Dup", PyValue.cls dupB)] }

/-- A concrete environment: root `good` walks to `[modM]`, root `dups`
walks to two modules defining the same short name, anything else fails
with `ImportError`; importing `m` yields `modM`, anything else fails. -/
def envW : Env :=
  { walk := fun r =>
      if r = "good" then .ok [modM]
      else if r = "dups" then .ok [modA, modB]
      else .error (.importError "unresolvable"),
    importMod := fun p => if p = "m" then .ok modM else .error (.importError "unresolvable") }

/-- An already-loaded registry with an empty index. -/
def regLoaded : Registry :=
  { found := [], items := [], item_modules := [], loaded := true,
    warn_only := none, warnings := [] }

/-- A fresh lazy registry configured with the single resolvable root. -/
def regLazy : Registry := initState ["good"] (some true)

/-- A fresh lazy registry with one unresolvable and one resolvable root,
warn-only enabled. -/
def regTwo : Registry := initState ["bad", "good"] (some true)

/-- A fresh lazy registry whose single root walks to two modules defining
the same short name. -/
def regDups : Registry := initState ["dups"] (some true)

/-- The registry state after the C2 witness call `load "m.Foo"`. -/
def regCached : Registry := { regLoaded with items := [("m.Foo", PyValue.cls fooCls)] }

/-! ## Dictionary lemmas -/

@[simp] theorem olast_some (v : α) (b : Option α) : olast (some v) b = some v := rfl

@[simp] theorem olast_none (b : Option α) : olast none b = b := rfl

@[simp] theorem olast_none_right (a : Option α) : olast a none = a := by
  cases a <;> rfl

theorem olast_assoc (a b c : Option α) : olast (olast a b) c = olast a (olast b c) := by
  cases a <;> rfl

theorem olast_if (c : Prop) [Decidable c] (x : α) (b : Option α) :
    olast (if c then some x else none) b = if c then some x else b := by
  split <;> rfl

theorem olast_isSome_left (a b : Option α) (h : a.isSome) : (olast a b).isSome := by
  cases a with
  | none => simp at h
  | some v => rfl

theorem dictGet_append (a b : List (String × α)) (k : String) :
    dictGet (a ++ b) k = olast (dictGet a k) (dictGet b k) := by
  induction a with
  | nil => simp [dictGet]
  | cons p t ih =>
    by_cases hp : p.1 = k <;> simp [dictGet, hp, ih]

theorem dictGet_mapUpdate (d : List (String × α)) (k k' : String) (v : α) :
    dictGet (d.map (fun p => if p.1 = k then (k, v) else p)) k' =
      if k = k' then Option.map (fun _ => v) (dictGet d k) else dictGet d k' := by
  induction d with
  | nil => by_cases h : k = k' <;> simp [dictGet, h]
  | cons p t ih =>
    by_cases hp : p.1 = k
    · by_cases hk : k = k' <;> simp [dictGet, hp, hk, ih]
    · by_cases hk : k = k'
      · subst hk
        simp [dictGet, hp, ih]
      · simp [dictGet, hp, hk, ih]

theorem dictGet_insert (d : List (String × α)) (k v k') :
    dictGet (dictInsert d k v) k' = if k = k' then some v else dictGet d k' := by
  unfold dictInsert
  by_cases hs : (dictGet d k).isSome
  · rw [if_pos hs, dictGet_mapUpdate]
    rcases Option.isSome_iff_exists.mp hs with ⟨w, hw⟩
    rw [hw]
    rfl
  · rw [if_neg hs, dictGet_append]
    rw [Option.not_isSome_iff_eq_none] at hs
    by_cases hk : k = k'
    · subst hk
      simp [dictGet, hs]
    · simp [dictGet, hk]

theorem dictGet_dictFold (L : List (String × α)) (d : List (String × α)) (k : String) :
    dictGet (dictFold L d) k = olast (lookupLast L k) (dictGet d k) := by
  induction L generalizing d with
  | nil => simp [dictFold, lookupLast]
  | cons p t ih =>
    show dictGet (dictFold t (dictInsert d p.1 p.2)) k = _
    rw [ih, dictGet_insert]
    have : lookupLast (p :: t) k = olast (lookupLast t k) (if p.1 = k then some p.2 else none) := by
      show (match lookupLast t k with
            | some v => some v
            | none => if p.1 = k then some p.2 else none) = _
      cases lookupLast t k <;> rfl
    rw [this, olast_assoc, olast_if]

theorem mem_dictKeys_iff_isSome (d : List (String × α)) (k : String) :
    k ∈ dictKeys d ↔ (dictGet d k).isSome := by
  induction d with
  | nil => simp [dictKeys, dictGet]
  | cons p t ih =>
    by_cases hp : p.1 = k
    · simp [dictKeys, dictGet, hp]
    · have hne : ¬ (k = p.1) := fun h => hp h.symm
      rw [show dictGet (p :: t) k = dictGet t k from if_neg hp,
          show dictKeys (p :: t) = p.1 :: dictKeys t from rfl,
          List.mem_cons]
      simp only [hne, false_or]
      exact ih

theorem dictGet_eq_none_of_not_mem (d : List (String × α)) (k : String)
    (h : k ∉ dictKeys d) : dictGet d k = none := by
  rw [mem_dictKeys_iff_isSome, Option.not_isSome_iff_eq_none] at h
  exact h

theorem dictKeys_insert_of_isSome (d : List (String × α)) (k : String) (v : α)
    (h : (dictGet d k).isSome) : dictKeys (dictInsert d k v) = dictKeys d := by
  unfold dictInsert
  rw [if_pos h]
  unfold dictKeys
  rw [List.map_map]
  apply List.map_congr_left
  intro p _
  by_cases hp : p.1 = k <;> simp [hp]

theorem dictKeys_insert_of_none (d : List (String × α)) (k : String) (v : α)
    (h : dictGet d k = none) : dictKeys (dictInsert d k v) = dictKeys d ++ [k] := by
  unfold dictInsert
  rw [if_neg (by simp [h]), dictKeys, dictKeys, List.map_append]
  rfl

theorem lookupLast_isSome_of_mem (L : List (String × α)) (k : String)
    (h : k ∈ L.map Prod.fst) : (lookupLast L k).isSome := by
  induction L with
  | nil => simp at h
  | cons p t ih =>
    rw [List.map_cons, List.mem_cons] at h
    show (match lookupLast t k with
          | some v => some v
          | none => if p.1 = k then some p.2 else none).isSome
    cases hl : lookupLast t k with
    | some v => rfl
    | none =>
      rcases h with h1 | h2
      · show (if p.1 = k then some p.2 else none).isSome = true
        rw [if_pos h1.symm]
        rfl
      · have := ih h2
        rw [hl] at this
        simp at this

theorem isSome_dictGet_dictFold (L d : List (String × α)) (k : String)
    (h : (lookupLast L k).isSome) : (dictGet (dictFold L d) k).isSome := by
  rw [dictGet_dictFold]
  exact olast_isSome_left _ _ h

theorem dictKeys_dictFold_of_subset (L d : List (String × α))
    (h : ∀ p ∈ L, (dictGet d p.1).isSome) :
    dictKeys (dictFold L d) = dictKeys d := by
  induction L generalizing d with
  | nil => rfl
  | cons p t ih =>
    show dictKeys (dictFold t (dictInsert d p.1 p.2)) = dictKeys d
    rw [ih (dictInsert d p.1 p.2) ?_, dictKeys_insert_of_isSome d p.1 p.2 (h p (by simp))]
    intro q hq
    rw [dictGet_insert]
    by_cases hpq : p.1 = q.1
    · simp [hpq]
    · rw [if_neg hpq]
      exact h q (by simp [hq])

theorem nodup_dictKeys_insert (d : List (String × α)) (k : String) (v : α)
    (h : (dictKeys d).Nodup) : (dictKeys (dictInsert d k v)).Nodup := by
  cases hs : dictGet d k with
  | some w =>
    rw [dictKeys_insert_of_isSome d k v (by simp [hs])]
    exact h
  | none =>
    rw [dictKeys_insert_of_none d k v hs]
    rw [List.nodup_append]
    refine ⟨h, List.nodup_singleton k, ?_⟩
    intro a ha hb
    rcases List.mem_singleton.mp hb with rfl
    have := (mem_dictKeys_iff_isSome d a).mp ha
    rw [hs] at this
    simp at this

theorem nodup_dictKeys_dictFold (L d : List (String × α))
    (h : (dictKeys d).Nodup) : (dictKeys (dictFold L d)).Nodup := by
  induction L generalizing d with
  | nil => exact h
  | cons p t ih =>
    exact ih (dictInsert d p.1 p.2) (nodup_dictKeys_insert d p.1 p.2 h)

theorem dict_ext (d1 d2 : List (String × α)) (hk : dictKeys d1 = dictKeys d2)
    (hn : (dictKeys d1).Nodup) (hg : ∀ k, dictGet d1 k = dictGet d2 k) : d1 = d2 := by
  induction d1 generalizing d2 with
  | nil =>
    cases d2 with
    | nil => rfl
    | cons q t2 => simp [dictKeys] at hk
  | cons p t1 ih =>
    cases d2 with
    | nil => simp [dictKeys] at hk
    | cons q t2 =>
      have hk1 : p.1 = q.1 := by
        simpa [dictKeys] using congrArg (fun l => l.headI) hk
      have hv : p.2 = q.2 := by
        have h1 := hg p.1
        rw [show dictGet (p :: t1) p.1 = some p.2 from by simp [dictGet],
            show dictGet (q :: t2) p.1 = some q.2 from by simp [dictGet, hk1.symm]] at h1
        exact Option.some.inj h1
      have hkt : dictKeys t1 = dictKeys t2 := by
        simpa [dictKeys] using congrArg (fun l => l.tail) hk
      have hcons : (p.1 :: dictKeys t1).Nodup := hn
      have hnt : (dictKeys t1).Nodup := (List.nodup_cons.mp hcons).2
      have hnp : p.1 ∉ dictKeys t1 := (List.nodup_cons.mp hcons).1
      have hgt : ∀ k, dictGet t1 k = dictGet t2 k := by
        intro k
        by_cases hkp : p.1 = k
        · subst hkp
          rw [dictGet_eq_none_of_not_mem t1 p.1 hnp,
              dictGet_eq_none_of_not_mem t2 p.1 (by rw [← hkt]; exact hnp)]
        · have h1 := hg k
          rw [show dictGet (p :: t1) k = dictGet t1 k from by simp [dictGet, hkp],
              show dictGet (q :: t2) k = dictGet t2 k from by
                simp [dictGet, hk1 ▸ hkp]] at h1
          exact h1
      have hpq : p = q := Prod.ext hk1 hv
      rw [hpq, ih t2 hkt hnt hgt]

theorem dictFold_idem (L d : List (String × α)) (h : (dictKeys d).Nodup) :
    dictFold L (dictFold L d) = dictFold L d := by
  have hsub : ∀ p ∈ L, (dictGet (dictFold L d) p.1).isSome := by
    intro p hp
    exact isSome_dictGet_dictFold L d p.1
      (lookupLast_isSome_of_mem L p.1 (List.mem_map_of_mem Prod.fst hp))
  apply dict_ext
  · exact dictKeys_dictFold_of_subset L (dictFold L d) hsub
  · exact nodup_dictKeys_dictFold L (dictFold L d) (nodup_dictKeys_dictFold L d h)
  · intro k
    rw [dictGet_dictFold, dictGet_dictFold]
    cases lookupLast L k <;> simp

theorem dictFold_append (a b d : List (String × α)) :
    dictFold (a ++ b) d = dictFold b (dictFold a d) := by
  unfold dictFold
  rw [List.foldl_append]

theorem foldl_loadItemsStep_items (mn : String) (L : List PyClass) (s : Registry) :
    (L.foldl (loadItemsStep mn) s).items =
      dictFold (L.map (fun c => (c.name, PyValue.cls c))) s.items := by
  induction L generalizing s with
  | nil => rfl
  | cons c L ih => exact ih (loadItemsStep mn s c)

theorem foldl_loadItemsStep_frame (mn : String) (L : List PyClass) (s : Registry) :
    (L.foldl (loadItemsStep mn) s).loaded = s.loaded ∧
    (L.foldl (loadItemsStep mn) s).warn_only = s.warn_only ∧
    (L.foldl (loadItemsStep mn) s).item_modules = s.item_modules ∧
    (L.foldl (loadItemsStep mn) s).warnings = s.warnings := by
  induction L generalizing s with
  | nil => exact ⟨rfl, rfl, rfl, rfl⟩
  | cons c L ih => exact ih (loadItemsStep mn s c)

theorem foldl_loadItemsStep_found (mn : String) (L : List PyClass) (s : Registry)
    (k : String) :
    (dictGet (L.foldl (loadItemsStep mn) s).found k).getD [] =
      (dictGet s.found k).getD [] ++
        ((L.filter (fun c => c.name = k)).map (fun c => (mn, c.name))) := by
  induction L generalizing s with
  | nil => simp
  | cons c L ih =>
    rw [List.foldl_cons, ih]
    by_cases hc : c.name = k
    · subst hc
      rw [List.filter_cons_of_pos (by simp), List.map_cons]
      show ((dictGet (dictInsert s.found c.name _) c.name).getD []) ++ _ = _
      rw [dictGet_insert, if_pos rfl]
      simp
    · rw [List.filter_cons_of_neg (by simp [hc])]
      show ((dictGet (dictInsert s.found c.name _) k).getD []) ++ _ = _
      rw [dictGet_insert, if_neg hc]

theorem load_items_items (s : Registry) (m : PyModule) :
    (load_items s m).items = dictFold (moduleInserts m) s.items :=
  foldl_loadItemsStep_items m.name (iter_item_classes m) s

theorem load_items_frame (s : Registry) (m : PyModule) :
    (load_items s m).loaded = s.loaded ∧
    (load_items s m).warn_only = s.warn_only ∧
    (load_items s m).item_modules = s.item_modules ∧
    (load_items s m).warnings = s.warnings :=
  foldl_loadItemsStep_frame m.name (iter_item_classes m) s

theorem load_items_found (s : Registry) (m : PyModule) (k : String) :
    (dictGet (load_items s m).found k).getD [] =
      (dictGet s.found k).getD [] ++ moduleOccs m k :=
  foldl_loadItemsStep_found m.name (iter_item_classes m) s k

theorem foldl_load_items_items (mods : List PyModule) (s : Registry) :
    (mods.foldl load_items s).items = dictFold (mods.flatMap moduleInserts) s.items := by
  induction mods generalizing s with
  | nil => rfl
  | cons m mods ih =>
    rw [List.foldl_cons, ih, load_items_items, List.flatMap_cons, dictFold_append]

theorem foldl_load_items_frame (mods : List PyModule) (s : Registry) :
    (mods.foldl load_items s).loaded = s.loaded ∧
    (mods.foldl load_items s).warn_only = s.warn_only ∧
    (mods.foldl load_items s).item_modules = s.item_modules ∧
    (mods.foldl load_items s).warnings = s.warnings := by
  induction mods generalizing s with
  | nil => exact ⟨rfl, rfl, rfl, rfl⟩
  | cons m mods ih =>
    obtain ⟨h1, h2, h3, h4⟩ := load_items_frame s m
    obtain ⟨g1, g2, g3, g4⟩ := ih (load_items s m)
    exact ⟨g1.trans h1, g2.trans h2, g3.trans h3, g4.trans h4⟩

theorem discoverLoop_cons_ok (env : Env) (n : String) (ns : List String)
    (s : Registry) (mods : List PyModule) (hw : env.walk n = .ok mods) :
    discoverLoop env (n :: ns) s = discoverLoop env ns (mods.foldl load_items s) := by
  show (match env.walk n with
        | .ok mods => discoverLoop env ns (mods.foldl load_items s)
        | .error (.importError msg) =>
          match s.warn_only with
          | some true =>
            discoverLoop env ns { s with warnings := s.warnings ++ [couldNotLoadMsg n] }
          | some false => (s, some (.importError msg))
          | none => (s, some (.attributeError "warn_only"))
        | .error e => (s, some e)) = _
  rw [hw]

theorem discoverLoop_cons_warn (env : Env) (n : String) (ns : List String)
    (s : Registry) (msg : String) (hw : env.walk n = .error (.importError msg))
    (hwo : s.warn_only = some true) :
    discoverLoop env (n :: ns) s =
      discoverLoop env ns { s with warnings := s.warnings ++ [couldNotLoadMsg n] } := by
  show (match env.walk n with
        | .ok mods => discoverLoop env ns (mods.foldl load_items s)
        | .error (.importError msg) =>
          match s.warn_only with
          | some true =>
            discoverLoop env ns { s with warnings := s.warnings ++ [couldNotLoadMsg n] }
          | some false => (s, some (.importError msg))
          | none => (s, some (.attributeError "warn_only"))
        | .error e => (s, some e)) = _
  rw [hw, hwo]

theorem discoverLoop_cons_fatal (env : Env) (n : String) (ns : List String)
    (s : Registry) (msg : String) (hw : env.walk n = .error (.importError msg))
    (hwo : s.warn_only = some false) :
    discoverLoop env (n :: ns) s = (s, some (.importError msg)) := by
  show (match env.walk n with
        | .ok mods => discoverLoop env ns (mods.foldl load_items s)
        | .error (.importError msg) =>
          match s.warn_only with
          | some true =>
            discoverLoop env ns { s with warnings := s.warnings ++ [couldNotLoadMsg n] }
          | some false => (s, some (.importError msg))
          | none => (s, some (.attributeError "warn_only"))
        | .error e => (s, some e)) = _
  rw [hw, hwo]

theorem discoverLoop_cons_noattr (env : Env) (n : String) (ns : List String)
    (s : Registry) (msg : String) (hw : env.walk n = .error (.importError msg))
    (hwo : s.warn_only = none) :
    discoverLoop env (n :: ns) s = (s, some (.attributeError "warn_only")) := by
  show (match env.walk n with
        | .ok mods => discoverLoop env ns (mods.foldl load_items s)
        | .error (.importError msg) =>
          match s.warn_only with
          | some true =>
            discoverLoop env ns { s with warnings := s.warnings ++ [couldNotLoadMsg n] }
          | some false => (s, some (.importError msg))
          | none => (s, some (.attributeError "warn_only"))
        | .error e => (s, some e)) = _
  rw [hw, hwo]

theorem discoverLoop_cons_attrErr (env : Env) (n : String) (ns : List String)
    (s : Registry) (msg : String) (hw : env.walk n = .error (.attributeError msg)) :
    discoverLoop env (n :: ns) s = (s, some (.attributeError msg)) := by
  show (match env.walk n with
        | .ok mods => discoverLoop env ns (mods.foldl load_items s)
        | .error (.importError msg) =>
          match s.warn_only with
          | some true =>
            discoverLoop env ns { s with warnings := s.warnings ++ [couldNotLoadMsg n] }
          | some false => (s, some (.importError msg))
          | none => (s, some (.attributeError "warn_only"))
        | .error e => (s, some e)) = _
  rw [hw]

theorem discoverLoop_cons_valErr (env : Env) (n : String) (ns : List String)
    (s : Registry) (msg : String) (hw : env.walk n = .error (.valueError msg)) :
    discoverLoop env (n :: ns) s = (s, some (.valueError msg)) := by
  show (match env.walk n with
        | .ok mods => discoverLoop env ns (mods.foldl load_items s)
        | .error (.importError msg) =>
          match s.warn_only with
          | some true =>
            discoverLoop env ns { s with warnings := s.warnings ++ [couldNotLoadMsg n] }
          | some false => (s, some (.importError msg))
          | none => (s, some (.attributeError "warn_only"))
        | .error e => (s, some e)) = _
  rw [hw]

theorem rootInserts_eq_of_ok (env : Env) (n : String) (mods : List PyModule)
    (hw : env.walk n = .ok mods) : rootInserts env n = mods.flatMap moduleInserts := by
  unfold rootInserts
  rw [hw]

theorem rootInserts_eq_of_error (env : Env) (n : String) (e : PyErr)
    (hw : env.walk n = .error e) : rootInserts env n = [] := by
  unfold rootInserts
  rw [hw]

theorem discoverLoop_complete (env : Env) (ns : List String) (s s' : Registry)
    (h : discoverLoop env ns s = (s', none)) :
    s'.items = dictFold (successfulInserts env ns) s.items ∧
    s'.loaded = true ∧
    s'.warn_only = s.warn_only ∧
    s'.item_modules = s.item_modules ∧
    s'.warnings = s.warnings ++
      ((ns.filter (fun n => !(exceptOk (env.walk n)))).map couldNotLoadMsg) := by
  induction ns generalizing s with
  | nil =>
    have h' : ({ s with loaded := true }, (none : Option PyErr)) = (s', none) := h
    obtain ⟨h1, -⟩ := Prod.mk.injEq _ _ _ _ ▸ h'
    subst h1
    exact ⟨rfl, rfl, rfl, rfl, by simp [successfulInserts]⟩
  | cons n ns ih =>
    cases hw : env.walk n with
    | ok mods =>
      rw [discoverLoop_cons_ok env n ns s mods hw] at h
      obtain ⟨i1, i2, i3, i4, i5⟩ := ih (mods.foldl load_items s) h
      obtain ⟨f1, f2, f3, f4⟩ := foldl_load_items_frame mods s
      refine ⟨?_, i2, i3.trans f2, i4.trans f3, ?_⟩
      · rw [i1, foldl_load_items_items,
            show successfulInserts env (n :: ns) =
              rootInserts env n ++ successfulInserts env ns from List.flatMap_cons .. ,
            dictFold_append, rootInserts_eq_of_ok env n mods hw]
      · rw [i5, f4, List.filter_cons_of_neg (by simp [exceptOk, hw])]
    | error e =>
      cases e with
      | importError msg =>
        cases hwo : s.warn_only with
        | none =>
          rw [discoverLoop_cons_noattr env n ns s msg hw hwo] at h
          exact absurd (congrArg Prod.snd h) (by simp)
        | some b =>
          cases b with
          | false =>
            rw [discoverLoop_cons_fatal env n ns s msg hw hwo] at h
            exact absurd (congrArg Prod.snd h) (by simp)
          | true =>
            rw [discoverLoop_cons_warn env n ns s msg hw hwo] at h
            obtain ⟨i1, i2, i3, i4, i5⟩ :=
              ih { s with warnings := s.warnings ++ [couldNotLoadMsg n] } h
            refine ⟨?_, i2, i3.trans hwo, i4, ?_⟩
            · rw [i1,
                  show successfulInserts env (n :: ns) =
                    rootInserts env n ++ successfulInserts env ns from List.flatMap_cons .. ,
                  rootInserts_eq_of_error env n _ hw]
              rfl
            · rw [i5, List.filter_cons_of_pos (by simp [exceptOk, hw]), List.map_cons]
              show (s.warnings ++ [couldNotLoadMsg n]) ++ _ = _
              rw [List.append_assoc]
              rfl
      | attributeError msg =>
        rw [discoverLoop_cons_attrErr env n ns s msg hw] at h
        exact absurd (congrArg Prod.snd h) (by simp)
      | valueError msg =>
        rw [discoverLoop_cons_valErr env n ns s msg hw] at h
        exact absurd (congrArg Prod.snd h) (by simp)

theorem pairEq {β : Type _} {γ : Type _} {a c : β} {b d : γ}
    (h : (a, b) = (c, d)) : a = c ∧ b = d := by
  rw [Prod.mk.injEq] at h
  exact h

theorem discoverLoop_error_state (env : Env) (ns : List String) (s s' : Registry)
    (e : PyErr) (h : discoverLoop env ns s = (s', some e)) :
    s'.loaded = s.loaded := by
  induction ns generalizing s with
  | nil =>
    have h' : ({ s with loaded := true }, (none : Option PyErr)) = (s', some e) := h
    exact absurd (congrArg Prod.snd h') (by simp)
  | cons n ns ih =>
    cases hw : env.walk n with
    | ok mods =>
      rw [discoverLoop_cons_ok env n ns s mods hw] at h
      exact (ih _ h).trans (foldl_load_items_frame mods s).1
    | error e' =>
      cases e' with
      | importError msg =>
        cases hwo : s.warn_only with
        | none =>
          rw [discoverLoop_cons_noattr env n ns s msg hw hwo] at h
          rw [← (pairEq h).1]
        | some b =>
          cases b with
          | false =>
            rw [discoverLoop_cons_fatal env n ns s msg hw hwo] at h
            rw [← (pairEq h).1]
          | true =>
            rw [discoverLoop_cons_warn env n ns s msg hw hwo] at h
            have h2 := ih { s with warnings := s.warnings ++ [couldNotLoadMsg n] } h
            exact h2
      | attributeError msg =>
        rw [discoverLoop_cons_attrErr env n ns s msg hw] at h
        rw [← (pairEq h).1]
      | valueError msg =>
        rw [discoverLoop_cons_valErr env n ns s msg hw] at h
        rw [← (pairEq h).1]

theorem discoverLoop_loaded_mono (env : Env) (ns : List String) (s : Registry)
    (h : s.loaded = true) : (discoverLoop env ns s).1.loaded = true := by
  cases hr : discoverLoop env ns s with
  | mk s' r =>
    cases r with
    | none => exact (discoverLoop_complete env ns s s' hr).2.1
    | some e => exact (discoverLoop_error_state env ns s s' e hr).trans h

theorem discoverLoop_complete_iff (env : Env) (ns : List String) (s : Registry) :
    (discoverLoop env ns s).2 = none ↔ completesB env ns s.warn_only = true := by
  induction ns generalizing s with
  | nil => simp [discoverLoop, completesB]
  | cons n ns ih =>
    rw [show completesB env (n :: ns) s.warn_only =
          (rootTolerable env s.warn_only n && completesB env ns s.warn_only) from
        List.all_cons .. ]
    cases hw : env.walk n with
    | ok mods =>
      rw [discoverLoop_cons_ok env n ns s mods hw,
          show rootTolerable env s.warn_only n = true from by
            unfold rootTolerable
            rw [hw],
          Bool.true_and]
      have := ih (mods.foldl load_items s)
      rw [(foldl_load_items_frame mods s).2.1] at this
      exact this
    | error e =>
      cases e with
      | importError msg =>
        rw [show rootTolerable env s.warn_only n = (s.warn_only == some true) from by
              unfold rootTolerable
              rw [hw]]
        cases hwo : s.warn_only with
        | none =>
          rw [discoverLoop_cons_noattr env n ns s msg hw hwo]
          simp
        | some b =>
          cases b with
          | false =>
            rw [discoverLoop_cons_fatal env n ns s msg hw hwo]
            simp
          | true =>
            rw [discoverLoop_cons_warn env n ns s msg hw hwo, hwo]
            have h2 := ih { s with warn_only := some true, warnings := s.warnings ++ [couldNotLoadMsg n] }
            rw [show ({ s with warn_only := some true, warnings := s.warnings ++ [couldNotLoadMsg n] } : Registry).warn_only = some true from rfl] at h2
            rw [h2]
            simp
      | attributeError msg =>
        rw [discoverLoop_cons_attrErr env n ns s msg hw,
            show rootTolerable env s.warn_only n = false from by
              unfold rootTolerable
              rw [hw]]
        simp
      | valueError msg =>
        rw [discoverLoop_cons_valErr env n ns s msg hw,
            show rootTolerable env s.warn_only n = false from by
              unfold rootTolerable
              rw [hw]]
        simp

/-! ## `_load_all_items` wrappers -/

theorem appendExtra_none (s : Registry) : appendExtra s none = s := by
  unfold appendExtra
  simp

theorem load_all_items_none (env : Env) (s : Registry) :
    load_all_items env s none = discoverLoop env s.item_modules s := by
  unfold load_all_items
  rw [appendExtra_none]

theorem appendExtra_frame (s : Registry) (extra : Option String) :
    (appendExtra s extra).loaded = s.loaded ∧
    (appendExtra s extra).warn_only = s.warn_only ∧
    (appendExtra s extra).items = s.items ∧
    (appendExtra s extra).warnings = s.warnings ∧
    (appendExtra s extra).found = s.found := by
  unfold appendExtra
  split <;> exact ⟨rfl, rfl, rfl, rfl, rfl⟩

theorem load_all_items_complete_loaded (env : Env) (s : Registry) (extra : Option String)
    (s' : Registry) (h : load_all_items env s extra = (s', none)) : s'.loaded = true := by
  unfold load_all_items at h
  exact (discoverLoop_complete env _ _ s' h).2.1

theorem load_all_items_loaded_mono (env : Env) (s : Registry) (extra : Option String)
    (h : s.loaded = true) : (load_all_items env s extra).1.loaded = true := by
  unfold load_all_items
  exact discoverLoop_loaded_mono env _ _ ((appendExtra_frame s extra).1.trans h)

theorem load_all_items_error_loaded (env : Env) (s : Registry) (extra : Option String)
    (s' : Registry) (e : PyErr) (h : load_all_items env s extra = (s', some e)) :
    s'.loaded = s.loaded := by
  unfold load_all_items at h
  exact (discoverLoop_error_state env _ _ s' e h).trans (appendExtra_frame s extra).1

/-! ## `get` / `list` / `load` basic lemmas -/

theorem get_empty (env : Env) (s : Registry) : ItemClassLoader.get env s "" = (s, .ok none) := rfl

theorem get_of_loaded (env : Env) (s : Registry) (name : String)
    (h : s.loaded = true) (hn : ¬ name = "") :
    ItemClassLoader.get env s name = (s, .ok (dictGet s.items name)) := by
  unfold ItemClassLoader.get
  rw [if_neg hn, if_pos h]

theorem get_ok (env : Env) (s : Registry) (name : String) (s1 : Registry)
    (r : Option PyValue) (hn : ¬ name = "")
    (h : ItemClassLoader.get env s name = (s1, .ok r)) :
    s1.loaded = true ∧ r = dictGet s1.items name := by
  unfold ItemClassLoader.get at h
  rw [if_neg hn] at h
  by_cases hl : s.loaded = true
  · rw [if_pos hl] at h
    obtain ⟨h1, h2⟩ := pairEq h
    subst h1
    exact ⟨hl, (Except.ok.injEq _ _ ▸ h2).symm⟩
  · rw [if_neg hl] at h
    cases hb : load_all_items env s none with
    | mk s2 e =>
      rw [hb] at h
      cases e with
      | none =>
        obtain ⟨h1, h2⟩ := pairEq h
        subst h1
        exact ⟨load_all_items_complete_loaded env s none s2 hb,
               (Except.ok.injEq _ _ ▸ h2).symm⟩
      | some e =>
        obtain ⟨-, h2⟩ := pairEq h
        exact absurd h2 (by simp)

theorem get_loaded_post (env : Env) (s : Registry) (name : String)
    (hn : ¬ name = "") (hl : ¬ s.loaded = true) :
    ItemClassLoader.get env s name =
      (match load_all_items env s none with
       | (s', none) => (s', .ok (dictGet s'.items name))
       | (s', some e) => (s', .error e)) := by
  unfold ItemClassLoader.get
  rw [if_neg hn, if_neg hl]

theorem list_of_loaded (env : Env) (s : Registry) (h : s.loaded = true) :
    list env s = (s, .ok (dictKeys s.items)) := by
  unfold list
  rw [if_pos h]

theorem load_eq_of_body_ok (env : Env) (s : Registry) (name : String)
    (s' : Registry) (v : Option PyValue) (h : loadBody env s name = (s', .ok v)) :
    load env s name = (s', v) := by
  unfold load
  rw [h]

theorem load_eq_of_body_error (env : Env) (s : Registry) (name : String)
    (s' : Registry) (e : PyErr) (h : loadBody env s name = (s', .error e)) :
    load env s name =
      ({ s' with warnings := s'.warnings ++ [classNotFoundMsg name] }, none) := by
  unfold load
  rw [h]

/-! ## Auxiliary facts -/

theorem truthy_of_isClassV (v : PyValue) (h : isClassV v = true) : truthy v = true := by
  cases v with
  | cls c => rfl
  | nonclass i t => exact absurd h (by simp [isClassV])

/-! ## The claims -/

/-- **C10**: calling `get` with an empty name returns nothing immediately
and leaves the registry state unchanged: it does not trigger the lazy
bootstrap and does not touch the index or occurrence log; likewise
`load` with an empty name performs no import and no mutation.  Both
equalities hold for *every* environment, so neither call consults
`walk_modules` or `importlib.import_module` at all. -/
theorem c10_empty_name_noop (env : Env) (s : Registry) :
    ItemClassLoader.get env s "" = (s, .ok none) ∧ load env s "" = (s, none) :=
  ⟨rfl, rfl⟩

/-- **C1**: `load` never raises: whenever its body (the `try` block,
including the lazy bootstrap run by the inner `get`) raises any
exception, the exception is caught by the catch-all `except` clause, a
non-fatal diagnostic is appended, and `load` returns nothing.  `load`'s
return type has no exception component, so no failure can propagate to
the caller. -/
theorem c1_load_never_raises (env : Env) (s : Registry) (name : String)
    (h : exceptOk (loadBody env s name).2 = false) :
    load env s name =
      ({ (loadBody env s name).1 with
         warnings := (loadBody env s name).1.warnings ++ [classNotFoundMsg name] },
       none) := by
  cases hb : loadBody env s name with
  | mk s' r =>
    cases r with
    | ok v =>
      rw [hb] at h
      exact absurd h (by simp [exceptOk])
    | error e =>
      exact load_eq_of_body_error env s name s' e hb

theorem c1_witness :
    exceptOk (loadBody envW regLoaded "not.a.real.module.Bar").2 = false ∧
    load envW regLoaded "not.a.real.module.Bar" =
      ({ (loadBody envW regLoaded "not.a.real.module.Bar").1 with
         warnings := (loadBody envW regLoaded "not.a.real.module.Bar").1.warnings ++
           [classNotFoundMsg "not.a.real.module.Bar"] }, none) :=
  ⟨by decide, c1_load_never_raises envW regLoaded "not.a.real.module.Bar" (by decide)⟩

/-- **C4 counterexample**: the claim "if the named attribute exists but is
not a class, `load(path)` returns nothing" is false: importing `m`
succeeds, attribute `x` exists and is not a class, yet
`load("m.x")` returns that non-class value, not nothing. -/
theorem c4_counterexample :
    envW.importMod "m" = .ok modM ∧
    getattr modM "x" = .ok (PyValue.nonclass 7 true) ∧
    isClassV (PyValue.nonclass 7 true) = false ∧
    dictGet regLoaded.items "m.x" = none ∧
    (load envW regLoaded "m.x").2 = some (PyValue.nonclass 7 true) ∧
    ¬ (load envW regLoaded "m.x").2 = none := by
  refine ⟨by decide, by decide, by decide, by decide, by decide, by decide⟩

/-- **C4 amended**: when the containing module imports successfully and
the named attribute exists but is not a class, `load(path)` returns the
retrieved attribute value itself (not nothing), inserts nothing into the
index, and emits no diagnostic: the post-state is unchanged.  (The
not-a-class case is *not* treated as a resolution failure.) -/
theorem c4_nonclass_attr_returned (env : Env) (s : Registry) (p mp cn : String)
    (md : PyModule) (v : PyValue)
    (hl : s.loaded = true) (hmiss : dictGet s.items p = none)
    (hsplit : rsplitDot p = some (mp, cn))
    (himp : env.importMod mp = .ok md) (hattr : getattr md cn = .ok v)
    (hnc : isClassV v = false) :
    load env s p = (s, some v) := by
  have hp : ¬ p = "" := by
    intro h
    rw [h, show rsplitDot "" = none from rfl] at hsplit
    exact Option.noConfusion hsplit
  have hb : loadBody env s p = (s, .ok (some v)) := by
    unfold loadBody
    rw [get_of_loaded env s p hl hp, hmiss]
    dsimp only
    rw [if_pos ⟨rfl, hp⟩, hsplit]
    dsimp only
    rw [himp]
    dsimp only
    rw [hattr]
    dsimp only
    rw [hnc, Bool.and_false]
    rfl
  exact load_eq_of_body_ok env s p s (some v) hb

theorem c4_witness :
    regLoaded.loaded = true ∧
    dictGet regLoaded.items "m.x" = none ∧
    rsplitDot "m.x" = some ("m", "x") ∧
    envW.importMod "m" = .ok modM ∧
    getattr modM "x" = .ok (PyValue.nonclass 7 true) ∧
    isClassV (PyValue.nonclass 7 true) = false ∧
    load envW regLoaded "m.x" = (regLoaded, some (PyValue.nonclass 7 true)) :=
  ⟨rfl, rfl, by decide, by decide, by decide, by decide,
   c4_nonclass_attr_returned envW regLoaded "m.x" "m" "x" modM
     (PyValue.nonclass 7 true) rfl rfl (by decide) (by decide) (by decide) (by decide)⟩

/-- **C2**: whenever `load p` succeeds with a class for a dotted path `p`
(one containing a separator), the class is indexed under the key `p`
itself: the post-state's index maps `p` to that very class, a subsequent
`get p` returns the same class object against *any* environment (so no
re-import can occur: `get` never consults the import machinery on a
loaded registry), and the key `p` is distinct from every separator-free
short-name key. -/
theorem c2_load_caches_under_path (env : Env) (s s' : Registry) (p : String)
    (v : PyValue) (hload : load env s p = (s', some v)) (hcls : isClassV v = true)
    (hdot : '.' ∈ p.data) :
    dictGet s'.items p = some v ∧
    (∀ env2 : Env, ItemClassLoader.get env2 s' p = (s', .ok (some v))) ∧
    (∀ k : String, '.' ∉ k.data → ¬ p = k) := by
  have hp : ¬ p = "" := by
    intro h
    rw [h] at hdot
    exact absurd hdot (by decide)
  have key : dictGet s'.items p = some v ∧ s'.loaded = true := by
    cases hb : loadBody env s p with
    | mk s1 r =>
      cases r with
      | error e =>
        rw [load_eq_of_body_error env s p s1 e hb] at hload
        exact absurd (pairEq hload).2 (by simp)
      | ok v0 =>
        rw [load_eq_of_body_ok env s p s1 v0 hb] at hload
        obtain ⟨rfl, rfl⟩ := pairEq hload
        unfold loadBody at hb
        cases hg : ItemClassLoader.get env s p with
        | mk s2 rg =>
          rw [hg] at hb
          cases rg with
          | error e => exact absurd (pairEq hb).2 (by simp)
          | ok cls0 =>
            obtain ⟨h2l, h2v⟩ := get_ok env s p s2 cls0 hp hg
            dsimp only at hb
            by_cases hc : truthyOpt cls0 = false ∧ ¬ p = ""
            · rw [if_pos hc] at hb
              cases hsp : rsplitDot p with
              | none =>
                rw [hsp] at hb
                exact absurd (pairEq hb).2 (by simp)
              | some pq =>
                cases pq with
                | mk mp cn =>
                  rw [hsp] at hb
                  dsimp only at hb
                  cases him : env.importMod mp with
                  | error e =>
                    rw [him] at hb
                    exact absurd (pairEq hb).2 (by simp)
                  | ok md =>
                    rw [him] at hb
                    dsimp only at hb
                    cases hat : getattr md cn with
                    | error e =>
                      rw [hat] at hb
                      exact absurd (pairEq hb).2 (by simp)
                    | ok w =>
                      rw [hat] at hb
                      dsimp only at hb
                      by_cases hcw : (truthy w && isClassV w) = true
                      · rw [if_pos hcw] at hb
                        obtain ⟨hs, hv⟩ := pairEq hb
                        have hwv : w = v := by
                          have := Except.ok.inj hv
                          exact Option.some.inj this
                        subst hwv
                        constructor
                        · rw [← hs]
                          show dictGet (dictInsert s2.items p w) p = some w
                          rw [dictGet_insert, if_pos rfl]
                        · rw [← hs]
                          exact h2l
                      · rw [if_neg hcw] at hb
                        obtain ⟨hs, hv⟩ := pairEq hb
                        have hwv : w = v := Option.some.inj (Except.ok.inj hv)
                        subst hwv
                        refine absurd ?_ hcw
                        rw [truthy_of_isClassV w hcls, hcls]
                        rfl
            · rw [if_neg hc] at hb
              obtain ⟨hs, hv⟩ := pairEq hb
              have hcv : cls0 = some v := Except.ok.inj hv
              subst hs
              exact ⟨by rw [← h2v, hcv], h2l⟩
  refine ⟨key.1, ?_, ?_⟩
  · intro env2
    rw [get_of_loaded env2 s' p key.2 hp, key.1]
  · intro k hk hpk
    rw [hpk] at hdot
    exact hk hdot

theorem c2_witness :
    load envW regLoaded "m.Foo" = (regCached, some (PyValue.cls fooCls)) ∧
    isClassV (PyValue.cls fooCls) = true ∧
    '.' ∈ "m.Foo".data ∧
    dictGet regCached.items "m.Foo" = some (PyValue.cls fooCls) ∧
    (∀ env2 : Env,
      ItemClassLoader.get env2 regCached "m.Foo" = (regCached, .ok (some (PyValue.cls fooCls)))) ∧
    (∀ k : String, '.' ∉ k.data → ¬ "m.Foo" = k) := by
  have h := c2_load_caches_under_path envW regLoaded regCached "m.Foo"
    (PyValue.cls fooCls) (by decide) (by decide) (by decide)
  exact ⟨by decide, by decide, by decide, h.1, h.2.1, h.2.2⟩

/-- **C7**: during a scan of one sub-module, exactly the qualifying
members are recorded: (a) for every short name `k`, the occurrence log at
`k` grows by precisely the qualifying classes of the module named `k`;
(b) the index binding of `k` becomes the last qualifying class of the
module named `k` when one exists, and is untouched otherwise; (c) a
member qualifies (appears in `iter_item_classes`) if and only if it is a
class, a subclass of the record base type, and its `__module__` equals
the scanned module's `__name__`. -/
theorem c7_scan_records_iff (s : Registry) (m : PyModule) :
    (∀ k, (dictGet (load_items s m).found k).getD [] =
      (dictGet s.found k).getD [] ++ moduleOccs m k) ∧
    (∀ k, dictGet (load_items s m).items k =
      olast (lookupLast (moduleInserts m) k) (dictGet s.items k)) ∧
    (∀ c, c ∈ iter_item_classes m ↔
      ∃ p ∈ m.members, p.2 = PyValue.cls c ∧ c.isItemSubclass = true ∧
        c.module = m.name) := by
  refine ⟨load_items_found s m, ?_, ?_⟩
  · intro k
    rw [load_items_items, dictGet_dictFold]
  · intro c
    unfold iter_item_classes
    rw [List.mem_filterMap]
    constructor
    · rintro ⟨v, hv, hf⟩
      rcases List.mem_map.mp hv with ⟨p, hp, rfl⟩
      cases hpv : p.2 with
      | cls c' =>
        rw [hpv] at hf
        dsimp only at hf
        by_cases hcond : (c'.isItemSubclass && c'.module == m.name) = true
        · rw [if_pos hcond] at hf
          have hcc : c' = c := Option.some.inj hf
          subst hcc
          obtain ⟨h1, h2⟩ := Bool.and_eq_true .. |>.mp hcond
          exact ⟨p, hp, hpv, h1, by rwa [beq_iff_eq] at h2⟩
        · rw [if_neg hcond] at hf
          exact Option.noConfusion hf
      | nonclass i t =>
        rw [hpv] at hf
        exact Option.noConfusion hf
    · rintro ⟨p, hp, hcls, hsub, hmod⟩
      refine ⟨p.2, List.mem_map_of_mem Prod.snd hp, ?_⟩
      rw [hcls]
      simp [hsub, hmod]

/-- **C3**: with warn-only enabled and every configured root either
resolvable or failing with an import error, `discoverAll()` runs to
completion without raising: each failing root is skipped with exactly one
non-fatal warning, LoadedFlag becomes true, and every class discovered
from a resolvable root is present in `list()` (whose result is the
index's key list). -/
theorem c3_warn_only_skip (env : Env) (s : Registry)
    (hw : s.warn_only = some true)
    (hall : ∀ r ∈ s.item_modules, rootTolerable env (some true) r = true) :
    (load_all_items env s none).2 = none ∧
    (load_all_items env s none).1.loaded = true ∧
    (load_all_items env s none).1.warnings = s.warnings ++
      ((s.item_modules.filter (fun n => !(exceptOk (env.walk n)))).map couldNotLoadMsg) ∧
    list env (load_all_items env s none).1 =
      ((load_all_items env s none).1,
       .ok (dictKeys (load_all_items env s none).1.items)) ∧
    (∀ r mods, r ∈ s.item_modules → env.walk r = .ok mods →
      ∀ c ∈ mods.flatMap iter_item_classes,
        c.name ∈ dictKeys (load_all_items env s none).1.items) := by
  have hcompl : (load_all_items env s none).2 = none := by
    rw [load_all_items_none, discoverLoop_complete_iff, hw]
    unfold completesB
    rw [List.all_eq_true]
    exact hall
  cases hr : load_all_items env s none with
  | mk s' r =>
    have hrn : r = none := by
      rw [hr] at hcompl
      exact hcompl
    subst hrn
    have hr' : discoverLoop env s.item_modules s = (s', none) := by
      rw [← load_all_items_none]
      exact hr
    obtain ⟨hi, hld, -, -, hwarn⟩ := discoverLoop_complete env s.item_modules s s' hr'
    refine ⟨rfl, hld, hwarn, list_of_loaded env s' hld, ?_⟩
    intro r mods hrmem hwalk c hc
    rcases List.mem_flatMap.mp hc with ⟨m, hm, hcm⟩
    have h1 : (c.name, PyValue.cls c) ∈ moduleInserts m :=
      List.mem_map_of_mem (fun c => (c.name, PyValue.cls c)) hcm
    have h2 : (c.name, PyValue.cls c) ∈ rootInserts env r := by
      rw [rootInserts_eq_of_ok env r mods hwalk]
      exact List.mem_flatMap.mpr ⟨m, hm, h1⟩
    have h3 : (c.name, PyValue.cls c) ∈ successfulInserts env s.item_modules :=
      List.mem_flatMap.mpr ⟨r, hrmem, h2⟩
    have h4 : c.name ∈ (successfulInserts env s.item_modules).map Prod.fst :=
      List.mem_map_of_mem Prod.fst h3
    rw [mem_dictKeys_iff_isSome, hi]
    exact isSome_dictGet_dictFold _ _ _ (lookupLast_isSome_of_mem _ _ h4)

theorem c3_witness :
    regTwo.warn_only = some true ∧
    (∀ r ∈ regTwo.item_modules, rootTolerable envW (some true) r = true) ∧
    (load_all_items envW regTwo none).2 = none ∧
    (load_all_items envW regTwo none).1.loaded = true ∧
    (load_all_items envW regTwo none).1.warnings = regTwo.warnings ++
      ((regTwo.item_modules.filter (fun n => !(exceptOk (envW.walk n)))).map
        couldNotLoadMsg) ∧
    (∀ c ∈ [modM].flatMap iter_item_classes,
      c.name ∈ dictKeys (load_all_items envW regTwo none).1.items) := by
  have h := c3_warn_only_skip envW regTwo rfl (by decide)
  exact ⟨rfl, by decide, h.1, h.2.1, h.2.2.1,
    fun c hc => h.2.2.2.2 "good" [modM] (by decide) (by decide) c hc⟩

/-- **C5**: lazy bootstrap equivalence: with a non-empty name and a
not-yet-loaded registry, `get(X)` produces exactly the same result as an
explicit `discoverAll()` followed by `get(X)` on the resulting state;
when the bootstrap discovery raises, `get(X)` raises that same error
(just as the explicit `discoverAll()` would). -/
theorem c5_lazy_bootstrap_equiv (env : Env) (s : Registry) (name : String)
    (hn : ¬ name = "") (hl : s.loaded = false) :
    (∀ s2, load_all_items env s none = (s2, none) →
      ItemClassLoader.get env s name = ItemClassLoader.get env s2 name) ∧
    (∀ s2 e, load_all_items env s none = (s2, some e) →
      ItemClassLoader.get env s name = (s2, .error e)) := by
  have hl' : ¬ s.loaded = true := by
    rw [hl]
    simp
  constructor
  · intro s2 h2
    rw [get_loaded_post env s name hn hl', h2,
        get_of_loaded env s2 name (load_all_items_complete_loaded env s none s2 h2) hn]
  · intro s2 e h2
    rw [get_loaded_post env s name hn hl', h2]

theorem c5_witness :
    (¬ "Foo" = "") ∧ regLazy.loaded = false ∧
    load_all_items envW regLazy none = ((load_all_items envW regLazy none).1, none) ∧
    ItemClassLoader.get envW regLazy "Foo" =
      ItemClassLoader.get envW (load_all_items envW regLazy none).1 "Foo" :=
  ⟨by decide, rfl, by decide,
   (c5_lazy_bootstrap_equiv envW regLazy "Foo" (by decide) rfl).1
     (load_all_items envW regLazy none).1 (by decide)⟩

/-- **C6**: idempotent discovery: if a `discoverAll()` pass with no extra
root completes, running `discoverAll()` again (same configured roots,
same environment) also completes and leaves the DiscoveryIndex literally
unchanged — the re-discovery deterministically overwrites each key with
the same class. -/
theorem c6_idempotent_discovery (env : Env) (s s1 : Registry)
    (hnd : (dictKeys s.items).Nodup)
    (h : load_all_items env s none = (s1, none)) :
    (load_all_items env s1 none).2 = none ∧
    (load_all_items env s1 none).1.items = s1.items := by
  rw [load_all_items_none] at h
  obtain ⟨hi, hld, hwo, him, hwarn⟩ := discoverLoop_complete env s.item_modules s s1 h
  have hc1 : completesB env s.item_modules s.warn_only = true := by
    rw [← discoverLoop_complete_iff, h]
  have hc2 : (discoverLoop env s1.item_modules s1).2 = none := by
    rw [him, discoverLoop_complete_iff, hwo]
    exact hc1
  refine ⟨by rw [load_all_items_none]; exact hc2, ?_⟩
  rw [load_all_items_none]
  cases hr : discoverLoop env s1.item_modules s1 with
  | mk s2 r =>
    have hrn : r = none := by
      rw [hr] at hc2
      exact hc2
    subst hrn
    obtain ⟨hi2, -, -, -, -⟩ := discoverLoop_complete env s1.item_modules s1 s2 hr
    show s2.items = s1.items
    rw [hi2, him, hi]
    exact dictFold_idem _ _ hnd

theorem c6_witness :
    (dictKeys regLazy.items).Nodup ∧
    load_all_items envW regLazy none = ((load_all_items envW regLazy none).1, none) ∧
    (load_all_items envW (load_all_items envW regLazy none).1 none).2 = none ∧
    (load_all_items envW (load_all_items envW regLazy none).1 none).1.items =
      (load_all_items envW regLazy none).1.items := by
  have h := c6_idempotent_discovery envW regLazy
    (load_all_items envW regLazy none).1 (by decide) (by decide)
  exact ⟨by decide, by decide, h.1, h.2⟩

/-- **C8**: if every configured root walks successfully and the last
qualifying `(short name, class)` assignment produced for name `n` during
the scan (root-list order, then walk order) is class `v`, then
`discoverAll()` raises no error and afterwards the DiscoveryIndex maps
`n` to exactly `v` — the last module scanned wins silently — and the
index's keys remain unique. -/
theorem c8_duplicate_short_name_last_wins (env : Env) (s : Registry) (n : String)
    (v : PyValue)
    (hnd : (dictKeys s.items).Nodup)
    (hok : ∀ r ∈ s.item_modules, exceptOk (env.walk r) = true)
    (hlast : lookupLast (successfulInserts env s.item_modules) n = some v) :
    (load_all_items env s none).2 = none ∧
    dictGet (load_all_items env s none).1.items n = some v ∧
    (dictKeys (load_all_items env s none).1.items).Nodup := by
  have hall : ∀ r ∈ s.item_modules, rootTolerable env s.warn_only r = true := by
    intro r hr
    have hx := hok r hr
    unfold rootTolerable
    cases hwk : env.walk r with
    | ok mods => rfl
    | error e =>
      rw [hwk] at hx
      exact absurd hx (by simp [exceptOk])
  have hcompl : (load_all_items env s none).2 = none := by
    rw [load_all_items_none, discoverLoop_complete_iff]
    unfold completesB
    rw [List.all_eq_true]
    exact hall
  cases hr : load_all_items env s none with
  | mk s' r =>
    have hrn : r = none := by
      rw [hr] at hcompl
      exact hcompl
    subst hrn
    have hr' : discoverLoop env s.item_modules s = (s', none) := by
      rw [← load_all_items_none]
      exact hr
    obtain ⟨hi, -, -, -, -⟩ := discoverLoop_complete env s.item_modules s s' hr'
    refine ⟨rfl, ?_, ?_⟩
    · show dictGet s'.items n = some v
      rw [hi, dictGet_dictFold, hlast]
      rfl
    · show (dictKeys s'.items).Nodup
      rw [hi]
      exact nodup_dictKeys_dictFold _ _ hnd

theorem c8_witness :
    dupA.name = "Dup" ∧ dupB.name = "Dup" ∧ modA.name ≠ modB.name ∧
    (dictKeys regDups.items).Nodup ∧
    (∀ r ∈ regDups.item_modules, exceptOk (envW.walk r) = true) ∧
    lookupLast (successfulInserts envW regDups.item_modules) "Dup" =
      some (PyValue.cls dupB) ∧
    (load_all_items envW regDups none).2 = none ∧
    dictGet (load_all_items envW regDups none).1.items "Dup" =
      some (PyValue.cls dupB) ∧
    (dictKeys (load_all_items envW regDups none).1.items).Nodup := by
  have h := c8_duplicate_short_name_last_wins envW regDups "Dup"
    (PyValue.cls dupB) (by decide) (by decide) (by decide)
  exact ⟨rfl, rfl, by decide, by decide, by decide, by decide, h.1, h.2.1, h.2.2⟩

/-! ## LoadedFlag monotonicity across the public operations -/

theorem get_loaded_mono (env : Env) (s : Registry) (name : String)
    (h : s.loaded = true) : (ItemClassLoader.get env s name).1.loaded = true := by
  unfold ItemClassLoader.get
  by_cases hn : name = ""
  · rw [if_pos hn]
    exact h
  · rw [if_neg hn, if_pos h]
    exact h

theorem loadBody_loaded_eq (env : Env) (s : Registry) (name : String) :
    (loadBody env s name).1.loaded = (ItemClassLoader.get env s name).1.loaded := by
  unfold loadBody
  cases hg : ItemClassLoader.get env s name with
  | mk s1 rg =>
    cases rg with
    | error e => rfl
    | ok cls0 =>
      dsimp only
      split
      · cases hsp : rsplitDot name with
        | none => rfl
        | some pq =>
          cases pq with
          | mk mp cn =>
            dsimp only
            cases him : env.importMod mp with
            | error e => rfl
            | ok md =>
              dsimp only
              cases hat : getattr md cn with
              | error e => rfl
              | ok w =>
                dsimp only
                split
                · rfl
                · rfl
      · rfl

theorem load_loaded_eq (env : Env) (s : Registry) (name : String) :
    (load env s name).1.loaded = (loadBody env s name).1.loaded := by
  unfold load
  cases hb : loadBody env s name with
  | mk s1 r =>
    cases r with
    | ok v => rfl
    | error e => rfl

theorem list_loaded_mono (env : Env) (s : Registry) (h : s.loaded = true) :
    (list env s).1.loaded = true := by
  rw [list_of_loaded env s h]
  exact h

theorem runOp_loaded_mono (env : Env) (s : Registry) (op : Op) (h : s.loaded = true) :
    (runOp env s op).loaded = true := by
  cases op with
  | discover ex => exact load_all_items_loaded_mono env s ex h
  | listOp => exact list_loaded_mono env s h
  | getOp n => exact get_loaded_mono env s n h
  | loadOp n =>
    show (load env s n).1.loaded = true
    rw [load_loaded_eq, loadBody_loaded_eq]
    exact get_loaded_mono env s n h

theorem runOps_loaded_mono (env : Env) (s : Registry) (ops : List Op)
    (h : s.loaded = true) : (runOps env s ops).loaded = true := by
  induction ops generalizing s with
  | nil => exact h
  | cons op ops ih => exact ih (runOp env s op) (runOp_loaded_mono env s op h)

/-- **C9**: the LoadedFlag transition is one-way: (a) it starts false
after `__init`; (b) from an unloaded state, a `discoverAll` invocation
sets it true exactly when the invocation runs to completion over every
configured root; (c) once true, no sequence of `discoverAll`, `list`,
`get` or `load` calls ever makes it false again. -/
theorem c9_loaded_flag_one_way :
    (∀ ims w, (initState ims w).loaded = false) ∧
    (∀ env s extra, s.loaded = false →
      ((load_all_items env s extra).1.loaded = true ↔
        (load_all_items env s extra).2 = none)) ∧
    (∀ env s ops, s.loaded = true → (runOps env s ops).loaded = true) := by
  refine ⟨fun ims w => rfl, ?_, fun env s ops h => runOps_loaded_mono env s ops h⟩
  intro env s extra hl
  cases hr : load_all_items env s extra with
  | mk s' r =>
    cases r with
    | none =>
      show s'.loaded = true ↔ (none : Option PyErr) = none
      exact ⟨fun _ => rfl, fun _ => load_all_items_complete_loaded env s extra s' hr⟩
    | some e =>
      show s'.loaded = true ↔ some e = none
      have h2 := load_all_items_error_loaded env s extra s' e hr
      constructor
      · intro hx
        rw [h2, hl] at hx
        exact absurd hx (by simp)
      · intro hx
        exact absurd hx (by simp)

theorem c9_witness :
    (initState ["good"] (some true)).loaded = false ∧
    regLazy.loaded = false ∧
    ((load_all_items envW regLazy none).1.loaded = true ↔
      (load_all_items envW regLazy none).2 = none) ∧
    regLoaded.loaded = true ∧
    (runOps envW regLoaded
      [Op.getOp "Foo", Op.listOp, Op.loadOp "m.Foo",
       Op.discover (some "good"), Op.loadOp "no.such.Name"]).loaded = true :=
  ⟨c9_loaded_flag_one_way.1 ["good"] (some true), rfl,
   c9_loaded_flag_one_way.2.1 envW regLazy none rfl, rfl,
   c9_loaded_flag_one_way.2.2 envW regLoaded _ rfl⟩
